import Mathlib

/-!
Shallow embedding of the RF Coverage & Viewshed Engine of the
lavalink-spectmap repository, together with theorems settling the
spec claims about it.

Part 1 embeds the pure lookup code of
src/visualization/models/antenna.py (profile tables, frequency
classification, beamwidth overrides) over ℚ; Python strings are lists
of characters and the Python `in` substring test is `containsSub`.

Part 2 embeds the real-valued geometry of
src/visualization/coverage_calculator.py and the azimuth estimator of
src/api/unms_client.py over ℝ.  External library calls (geopy geodesic
destination, rasterio index/rowcol, raster reads) are abstracted as
function parameters; trigonometric functions are Mathlib's Real.tan,
Real.sin, Real.cos, and Python's math.atan2 is Complex.arg.
-/

namespace LavalinkSpec

/-- Python str.lower on a string represented as a list of characters. -/
def lowerStr (s : List Char) : List Char := s.map Char.toLower

/-- Bool test that the first list is an initial segment of the second. -/
def leadMatch : List Char → List Char → Bool
  | [], _ => true
  | _ :: _, [] => false
  | a :: as, b :: bs => a == b && leadMatch as bs

/-- Python substring containment needle in haystack. -/
def containsSub (needle : List Char) : List Char → Bool
  | [] => needle.isEmpty
  | c :: rest => leadMatch needle (c :: rest) || containsSub needle rest

/-- Embedding of Antenna._model_beamwidth (antenna.py lines 230-264):
ordered case-insensitive substring matching returning (H, V) beamwidths.
A RocketAC model without the AMO-5G10 reflector falls through to the
later rows, exactly as the nested Python conditionals do. -/
def model_beamwidth (model ant : List Char) : ℚ × ℚ :=
  let ml := lowerStr model
  let al := lowerStr ant
  if containsSub "r5ac".toList ml && containsSub "amo-5g10".toList al then (360, 12)
  else if containsSub "lap-gps".toList ml then (90, 20)
  else if containsSub "airmax".toList ml then
    (if containsSub "ac".toList ml then (90, 7) else (60, 12))
  else if containsSub "litemax".toList ml then (120, 10)
  else if containsSub "powerbeam".toList ml then (30, 30)
  else if containsSub "wave-ap".toList ml then
    (if containsSub "micro".toList ml then (90, 30) else (30, 3))
  else if containsSub "wave-pro".toList ml then (13/10, 13/10)
  else if containsSub "af60".toList ml then (16/10, 16/10)
  else (60, 15)

/-- Embedding of Antenna._model_range_m (antenna.py lines 266-298).
The source tests `if "r5ac" in model_lower or "rp-5ac":`; in Python the
non-empty string literal "rp-5ac" is truthy, so the first branch is
taken for every model, which is embedded here as the disjunction with
`true`.  The remaining rows of the table are kept verbatim even though
that makes them unreachable, exactly as in the source. -/
def model_range_m (model ant : List Char) : ℚ :=
  let ml := lowerStr model
  let al := lowerStr ant
  if containsSub "r5ac".toList ml || true then
    (if containsSub "amo-5g10".toList al then 750 else 3000)
  else if containsSub "ps-5ac".toList ml then
    (if containsSub "horn".toList al then 3000 else 3000)
  else if containsSub "lap-gps".toList ml then 2000
  else if containsSub "wave-ap".toList ml then
    (if containsSub "micro".toList ml then 6000 else 8000)
  else if containsSub "wave-pro".toList ml then 15000
  else if containsSub "wave-lr".toList ml then 12000
  else if containsSub "af60".toList ml then 12000
  else 5000

/-- Embedding of the Antenna.frequency_band property (antenna.py lines
30-50): the chain of elif range tests, returning the band interval. -/
def frequency_band (f : ℚ) : Option (ℚ × ℚ) :=
  if f < 3000 then some (2400, 2495)
  else if 5150 ≤ f ∧ f < 5250 then some (5150, 5250)
  else if 5250 ≤ f ∧ f < 5350 then some (5250, 5350)
  else if 5350 ≤ f ∧ f < 5470 then some (5350, 5470)
  else if 5470 ≤ f ∧ f < 5725 then some (5470, 5725)
  else if 5725 ≤ f ∧ f < 5850 then some (5725, 5850)
  else if 5850 ≤ f ∧ f < 5925 then some (5850, 5925)
  else if 5925 ≤ f ∧ f < 7125 then some (5925, 7125)
  else if 58000 ≤ f ∧ f < 70000 then some (58000, 70000)
  else none

/-- The fields of the Antenna dataclass needed for beamwidth
resolution; the optional overrides model Optional[float]. -/
structure AntennaRec where
  model : List Char
  ant : List Char
  beamwidth_h : Option ℚ
  beamwidth_v : Option ℚ

/-- Embedding of the beamwidth_horizontal property (antenna.py line
223): `self.beamwidth_h or self._model_beamwidth()[0]`.  Python `or`
treats both None and 0.0 as falsy, so a present-but-zero override
falls back to the model table. -/
def beamwidth_horizontal (a : AntennaRec) : ℚ :=
  match a.beamwidth_h with
  | some b => if b = 0 then (model_beamwidth a.model a.ant).1 else b
  | none => (model_beamwidth a.model a.ant).1

/-- Embedding of the beamwidth_vertical property (antenna.py line 228). -/
def beamwidth_vertical (a : AntennaRec) : ℚ :=
  match a.beamwidth_v with
  | some b => if b = 0 then (model_beamwidth a.model a.ant).2 else b
  | none => (model_beamwidth a.model a.ant).2

/-- Embedding of CoverageCalculator.get_elevation
(coverage_calculator.py lines 69-93).  The body performs a raster
lookup inside a try/except that converts every failure (bad index,
out-of-bounds window read, missing dataset) into the sentinel 0.0; the
fallible lookup is abstracted as a function into Except. -/
def get_elevation (fetch : ℚ → ℚ → Except String ℚ) (lat lon : ℚ) : ℚ :=
  match fetch lat lon with
  | .ok v => v
  | .error _ => 0

noncomputable section

open scoped Classical

/-- np.radians: degrees to radians. -/
def deg2rad (d : ℝ) : ℝ := d * Real.pi / 180

/-- np.degrees: radians to degrees. -/
def rad2deg (r : ℝ) : ℝ := r * 180 / Real.pi

/-- The bearing, in degrees, handed to the geodesic destination call for
ray i of a fan of steps+1 rays spanning beamwidth degrees centered on
azimuth: the source computes the angle in radians as
azimuth_rad - radians(beamwidth/2) + radians(beamwidth) * i / steps and
passes np.degrees of it. -/
def cone_bearing (azimuth beamwidth : ℝ) (steps i : ℕ) : ℝ :=
  rad2deg (deg2rad azimuth - deg2rad (beamwidth / 2) + deg2rad beamwidth * i / steps)

/-- Ground distance at which the downtilted beam meets the ground
(coverage_calculator.py lines 184-188): the source tests
downtilt_rad <= 0 where downtilt_rad = radians(abs(downtilt)), falling
back to distance_m, else divides antenna_height by tan(downtilt_rad). -/
def ground_distance (antenna_height downtilt distance_m : ℝ) : ℝ :=
  if deg2rad |downtilt| ≤ 0 then distance_m
  else antenna_height / Real.tan (deg2rad |downtilt|)

/-- The distance used for every ray of the coverage fan
(coverage_calculator.py line 194): min(ground_distance, distance_m). -/
def cone_boundary_dist (antenna_height downtilt distance_m : ℝ) : ℝ :=
  min (ground_distance antenna_height downtilt distance_m) distance_m

/-- Embedding of CoverageCalculator.calculate_coverage_cone
(coverage_calculator.py lines 168-209).  The geopy geodesic destination
call is abstracted as dest lat lon bearing dist, returning (lat, lon). -/
def calculate_coverage_cone (dest : ℝ → ℝ → ℝ → ℝ → ℝ × ℝ)
    (center_lat center_lon azimuth downtilt beamwidth antenna_height distance_m : ℝ) :
    List (ℝ × ℝ) :=
  let steps : ℕ := 36
  let arc := (List.range (steps + 1)).map (fun i =>
    dest center_lat center_lon (cone_bearing azimuth beamwidth steps i)
      (cone_boundary_dist antenna_height downtilt distance_m))
  if beamwidth ≠ 360 ∧ beamwidth ≠ 0 then (center_lat, center_lon) :: arc else arc

/-- np.linspace(a, b, n): n equally spaced samples including both ends;
for n = 1 the real division by zero yields a, matching numpy. -/
def linspace (a b : ℝ) (n : ℕ) : List ℝ :=
  (List.range n).map (fun j : ℕ => a + (b - a) * (j : ℝ) / ((n : ℝ) - 1))

/-- The per-ray march of calculate_viewshed: walk the distance samples in
order and stop at the first obstructed one, keeping only the samples
strictly before it (the inner for-loop with break, lines 133-160). -/
def truncate_ray (obstructed : ℝ → Prop) : List ℝ → List ℝ
  | [] => []
  | d :: ds => if obstructed d then [] else d :: truncate_ray obstructed ds

/-- The inputs of CoverageCalculator.calculate_viewshed: the elevation
sampling service (get_elevation after its error handling, so total), the
geodesic destination function, the config values arc_steps and
arc_radial_points, and the numeric arguments of the method together with
the calculator's antenna_height and beamwidth fields. -/
structure VsParams where
  elev : ℝ × ℝ → ℝ
  dest : ℝ → ℝ → ℝ → ℝ → ℝ × ℝ
  steps : ℕ
  points_per_line : ℕ
  center_lat : ℝ
  center_lon : ℝ
  azimuth : ℝ
  downtilt : ℝ
  beamwidth : ℝ
  antenna_height : ℝ
  distance_m : ℝ
  station_height : ℝ

/-- The candidate point of ray i at distance d (lines 135-139). -/
def vs_point (P : VsParams) (i : ℕ) (d : ℝ) : ℝ × ℝ :=
  P.dest P.center_lat P.center_lon (cone_bearing P.azimuth P.beamwidth P.steps i) d

/-- The obstruction test of line 156: sampled terrain elevation strictly
above antenna_height - dist * tan(radians(abs(downtilt))) plus the
station height. -/
def vs_obstructed (P : VsParams) (i : ℕ) (d : ℝ) : Prop :=
  P.elev (vs_point P i d) >
    P.antenna_height - d * Real.tan (deg2rad |P.downtilt|) + P.station_height

/-- The distances along ray i that survive the march: the linspace
samples from 0 to distance_m truncated at the first obstruction. -/
def vs_ray_dists (P : VsParams) (i : ℕ) : List ℝ :=
  truncate_ray (vs_obstructed P i) (linspace 0 P.distance_m P.points_per_line)

/-- Embedding of CoverageCalculator.calculate_viewshed
(coverage_calculator.py lines 95-166): per-bearing truncated rays in
bearing order, with the center prepended for directional beamwidths. -/
def calculate_viewshed (P : VsParams) : List (ℝ × ℝ) :=
  let pts := (List.range (P.steps + 1)).flatMap (fun i =>
    (vs_ray_dists P i).map (vs_point P i))
  if P.beamwidth ≠ 360 ∧ P.beamwidth ≠ 0 then
    (P.center_lat, P.center_lon) :: pts
  else pts

/-- math.atan2(y, x) as the argument of the complex number x + y i
(range (-pi, pi]; atan2 0 0 = 0, exactly as math.atan2). -/
def atan2 (y x : ℝ) : ℝ := Complex.arg ⟨x, y⟩

/-- Per-station x component of the bearing vector (unms_client.py line
174): cos(lat2) * sin(delta_lon), the station as point 2, longitudes
converted to radians before subtracting. -/
def bearing_x (ap st : ℝ × ℝ) : ℝ :=
  Real.cos (deg2rad st.1) * Real.sin (deg2rad st.2 - deg2rad ap.2)

/-- Per-station y component of the bearing vector (unms_client.py line
175): cos(lat1) * sin(lat2) - sin(lat1) * cos(lat2) * cos(delta_lon). -/
def bearing_y (ap st : ℝ × ℝ) : ℝ :=
  Real.cos (deg2rad ap.1) * Real.sin (deg2rad st.1) -
    Real.sin (deg2rad ap.1) * Real.cos (deg2rad st.1) *
      Real.cos (deg2rad st.2 - deg2rad ap.2)

/-- Embedding of UNMSClient.estimate_ap_azimuth (unms_client.py lines
147-190): an empty station list returns 0.0; otherwise the x and y
components are accumulated over the stations in order, the mean bearing
is degrees(atan2(x_sum, y_sum)), and a negative result is shifted by
360. -/
def estimate_ap_azimuth (ap : ℝ × ℝ) (stations : List (ℝ × ℝ)) : ℝ :=
  if stations = [] then 0
  else
    let sums := stations.foldl
      (fun acc st => (acc.1 + bearing_x ap st, acc.2 + bearing_y ap st)) (0, 0)
    let az := rad2deg (atan2 sums.1 sums.2)
    if az < 0 then az + 360 else az

/-- Modelled from the spec (section 4.3 wording, as the reference side of
the C6 refinement): sum the per-station components, take
degrees(atan2(sum of x, sum of y)) and normalize negative results into
[0, 360) by adding 360. -/
def azimuth_circular_mean (ap : ℝ × ℝ) (stations : List (ℝ × ℝ)) : ℝ :=
  let az := rad2deg (atan2 ((stations.map (bearing_x ap)).sum)
    ((stations.map (bearing_y ap)).sum))
  if az < 0 then az + 360 else az

/-- The inputs of CoverageCalculator.calculate_viewshed_raster: the
preloaded raster array (shape rows x cols with its cell elevations), the
georeferenced bounds returned by rasterio.transform.array_bounds
(west, south, east, north), rasterio.transform.rowcol abstracted as a
fallible function (its ValueError is the error case), the geodesic
destination function, and the numeric arguments of the method. -/
structure RasterParams where
  rows : ℕ
  cols : ℕ
  raster : ℕ → ℕ → ℝ
  west : ℝ
  south : ℝ
  east : ℝ
  north : ℝ
  rowcol : ℝ → ℝ → Except Unit (ℤ × ℤ)
  dest : ℝ → ℝ → ℝ → ℝ → ℝ × ℝ
  center_lat : ℝ
  center_lon : ℝ
  azimuth : ℝ
  downtilt : ℝ
  beamwidth : ℝ
  antenna_height : ℝ
  distance_m : ℝ

/-- An all-zero grid shaped like the source raster (np.zeros). -/
def zeros_grid (rows cols : ℕ) : List (List ℕ) :=
  List.replicate rows (List.replicate cols 0)

/-- Mark one cell of the grid as visible (viewshed[r, c] = 1). -/
def mark_cell (g : List (List ℕ)) (r c : ℕ) : List (List ℕ) :=
  g.set r ((g.getD r []).set c 1)

/-- One iteration of the double loop of calculate_viewshed_raster
(coverage_calculator.py lines 222-253), for the sample s = (angle, dist):
skip the sample when the target point is outside the georeferenced
bounds, when rowcol fails, or when the indices are outside the raster
dimensions; otherwise mark the cell visible when its elevation does not
exceed antenna_height - dist * tan(radians(downtilt)). -/
def raster_step (P : RasterParams) (g : List (List ℕ)) (s : ℝ × ℝ) : List (List ℕ) :=
  let p := P.dest P.center_lat P.center_lon s.1 s.2
  if P.west ≤ p.2 ∧ p.2 ≤ P.east ∧ P.south ≤ p.1 ∧ p.1 ≤ P.north then
    match P.rowcol p.2 p.1 with
    | .error _ => g
    | .ok (r, c) =>
      if 0 ≤ r ∧ r < (P.rows : ℤ) ∧ 0 ≤ c ∧ c < (P.cols : ℤ) then
        (if P.raster r.toNat c.toNat ≤
            P.antenna_height - s.2 * Real.tan (deg2rad P.downtilt) then
          mark_cell g r.toNat c.toNat
        else g)
      else g
  else g

/-- The samples of the double loop (lines 222-223): 36 bearings across
the beamwidth by 100 distances from 0 to distance_m, bearing-major. -/
def raster_samples (P : RasterParams) : List (ℝ × ℝ) :=
  (linspace (P.azimuth - P.beamwidth / 2) (P.azimuth + P.beamwidth / 2) 36).flatMap
    (fun a => (linspace 0 P.distance_m 100).map (fun t => (a, t)))

/-- Embedding of CoverageCalculator.calculate_viewshed_raster
(coverage_calculator.py lines 211-255). -/
def calculate_viewshed_raster (P : RasterParams) : List (List ℕ) :=
  (raster_samples P).foldl (raster_step P) (zeros_grid P.rows P.cols)

/-- The value of a grid cell, defaulting to 0 outside the grid. -/
def gridVal (g : List (List ℕ)) (i j : ℕ) : ℕ := (g.getD i []).getD j 0

/-- The condition under which the sample s = (angle, dist) legitimately
marks cell (i, j) of the viewshed raster: its target point lies inside
the georeferenced bounds, rowcol succeeds with indices inside the raster
dimensions that map to (i, j), and the cell's elevation does not exceed
the signal height at dist. -/
def raster_marks (P : RasterParams) (s : ℝ × ℝ) (i j : ℕ) : Prop :=
  (P.west ≤ (P.dest P.center_lat P.center_lon s.1 s.2).2 ∧
    (P.dest P.center_lat P.center_lon s.1 s.2).2 ≤ P.east ∧
    P.south ≤ (P.dest P.center_lat P.center_lon s.1 s.2).1 ∧
    (P.dest P.center_lat P.center_lon s.1 s.2).1 ≤ P.north) ∧
  ∃ r c : ℤ,
    P.rowcol (P.dest P.center_lat P.center_lon s.1 s.2).2
        (P.dest P.center_lat P.center_lon s.1 s.2).1 = .ok (r, c) ∧
    (0 ≤ r ∧ r < (P.rows : ℤ) ∧ 0 ≤ c ∧ c < (P.cols : ℤ)) ∧
    r.toNat = i ∧ c.toNat = j ∧
    P.raster i j ≤ P.antenna_height - s.2 * Real.tan (deg2rad P.downtilt)

end

/-- C1: the claim that a model and antenna subtype matching no table row
resolve to the default profile (60 deg, 15 deg, 5000 m) fails on the code.
The beamwidth default (60, 15) is reached, but in _model_range_m the Python
condition `"r5ac" in model_lower or "rp-5ac"` is always truthy (a non-empty
string literal), so every model resolves to the RocketAC ranges 750/3000 and
the documented 5000 m default is unreachable: at the unmatched model
"generic" the resolved range is 3000, and in general the range is 750 or
3000 for every input. -/
theorem c1_range_default_dead :
    model_beamwidth "generic".toList "".toList = (60, 15) ∧
    model_range_m "generic".toList "".toList = 3000 ∧ (3000 : ℚ) ≠ 5000 ∧
    ∀ model ant, model_range_m model ant =
      (if containsSub "amo-5g10".toList (lowerStr ant) then 750 else 3000) := by
  refine ⟨by decide, by decide, by decide, fun model ant => ?_⟩
  simp [model_range_m]

/-- C2 counterexample: frequency 2500 lies outside every published band
interval, yet frequency_band returns the 2.4 GHz interval (2400, 2495),
which does not contain 2500; the claim that a returned interval always
contains the frequency is therefore false as stated. -/
theorem c2_counterexample :
    frequency_band 2500 = some (2400, 2495) ∧
    ¬((2400 : ℚ) ≤ 2500 ∧ (2500 : ℚ) < 2495) := by decide

/-- The 2.4 GHz row of frequency_band fires exactly for frequencies below
3000, whether or not they lie inside the returned interval. -/
theorem fb_some_2400 (f : ℚ) :
    frequency_band f = some (2400, 2495) ↔ f < 3000 := by
  constructor
  · intro h
    unfold frequency_band at h
    split_ifs at h with h1 h2 h3 h4 h5 h6 h7 h8 h9
    · exact h1
    all_goals norm_num at h
  · intro h
    unfold frequency_band
    rw [if_pos h]

/-- Every interval frequency_band returns other than the 2.4 GHz one
contains the frequency as a half-open interval. -/
theorem fb_contain (f : ℚ) : ∀ lo hi, frequency_band f = some (lo, hi) →
    (lo, hi) ≠ (2400, 2495) → lo ≤ f ∧ f < hi := by
  intro lo hi h hne
  unfold frequency_band at h
  split_ifs at h with h1 h2 h3 h4 h5 h6 h7 h8 h9 <;>
    simp only [Option.some.injEq, Prod.mk.injEq, reduceCtorEq] at h
  · exact absurd (by rw [← h.1, ← h.2]) hne
  all_goals (obtain ⟨rfl, rfl⟩ := h; assumption)

/-- frequency_band returns no band exactly on the gaps between the
published intervals at and above 3000. -/
theorem fb_none (f : ℚ) : frequency_band f = none ↔
    (3000 ≤ f ∧ f < 5150) ∨ (7125 ≤ f ∧ f < 58000) ∨ 70000 ≤ f := by
  unfold frequency_band
  split_ifs with h1 h2 h3 h4 h5 h6 h7 h8 h9
  all_goals try (
    simp only [reduceCtorEq, false_iff]
    try obtain ⟨ha, hb⟩ := h2
    try obtain ⟨ha, hb⟩ := h3
    try obtain ⟨ha, hb⟩ := h4
    try obtain ⟨ha, hb⟩ := h5
    try obtain ⟨ha, hb⟩ := h6
    try obtain ⟨ha, hb⟩ := h7
    try obtain ⟨ha, hb⟩ := h8
    try obtain ⟨ha, hb⟩ := h9
    rintro (⟨u, v⟩ | ⟨u, v⟩ | u) <;> linarith)
  simp only [eq_self_iff_true, true_iff]
  push_neg at h1 h2 h3 h4 h5 h6 h7 h8 h9
  rcases lt_or_le f 5150 with hf | hf
  · exact Or.inl ⟨h1, hf⟩
  · have g2 := h2 hf
    have g3 := h3 g2
    have g4 := h4 g3
    have g5 := h5 g4
    have g6 := h6 g5
    have g7 := h7 g6
    have g8 := h8 g7
    rcases lt_or_le f 58000 with hg | hg
    · exact Or.inr (Or.inl ⟨g8, hg⟩)
    · exact Or.inr (Or.inr (h9 hg))

/-- C2 amended: frequency_band returns the 2.4 GHz interval (2400, 2495)
exactly for frequencies below 3000 (even when they lie outside it); every
other returned interval does contain the frequency as a half-open interval;
and no band is returned exactly on the gaps between 3000 and 5150, between
7125 and 58000, and from 70000 up. -/
theorem c2_band_containment (f : ℚ) :
    (frequency_band f = some (2400, 2495) ↔ f < 3000) ∧
    (∀ lo hi, frequency_band f = some (lo, hi) → (lo, hi) ≠ (2400, 2495) →
      lo ≤ f ∧ f < hi) ∧
    (frequency_band f = none ↔
      (3000 ≤ f ∧ f < 5150) ∨ (7125 ≤ f ∧ f < 58000) ∨ 70000 ≤ f) :=
  ⟨fb_some_2400 f, fb_contain f, fb_none f⟩

/-- C2 witness: at frequency 5200 the returned U-NII-1 interval
(5150, 5250) contains the frequency. -/
theorem c2_band_containment_witness :
    frequency_band 5200 = some (5150, 5250) ∧
    (5150 : ℚ) ≤ 5200 ∧ (5200 : ℚ) < 5250 :=
  ⟨by decide, (c2_band_containment 5200).2.1 5150 5250 (by decide) (by decide)⟩

/-- C7 counterexample: a Radio with an explicit beamwidth override of 0 does
not get beamwidth 0: Python `or` treats 0.0 as falsy, so the derived
horizontal beamwidth of a PowerBeam with override 0 is the model-table value
30, not the override. -/
theorem c7_counterexample :
    beamwidth_horizontal ⟨"powerbeam".toList, "".toList, some 0, some 0⟩ = 30 ∧
    (30 : ℚ) ≠ 0 := by decide

/-- C7 amended: an explicit beamwidth override is used exactly when it is
present and nonzero; a present override equal to 0, like an absent one,
falls back to the model-keyed profile table (horizontal and vertical
alike). -/
theorem c7_override_nonzero (a : AntennaRec) (b : ℚ) :
    (a.beamwidth_h = some b → b ≠ 0 → beamwidth_horizontal a = b) ∧
    (a.beamwidth_h = some 0 → beamwidth_horizontal a = (model_beamwidth a.model a.ant).1) ∧
    (a.beamwidth_h = none → beamwidth_horizontal a = (model_beamwidth a.model a.ant).1) ∧
    (a.beamwidth_v = some b → b ≠ 0 → beamwidth_vertical a = b) ∧
    (a.beamwidth_v = some 0 → beamwidth_vertical a = (model_beamwidth a.model a.ant).2) ∧
    (a.beamwidth_v = none → beamwidth_vertical a = (model_beamwidth a.model a.ant).2) := by
  refine ⟨fun h hb => ?_, fun h => ?_, fun h => ?_, fun h hb => ?_, fun h => ?_, fun h => ?_⟩
  · simp [beamwidth_horizontal, h, hb]
  · simp [beamwidth_horizontal, h]
  · simp [beamwidth_horizontal, h]
  · simp [beamwidth_vertical, h, hb]
  · simp [beamwidth_vertical, h]
  · simp [beamwidth_vertical, h]

/-- C7 witness: a PowerBeam record with horizontal override 45 and no
vertical override derives horizontal beamwidth 45 and the model-table
vertical beamwidth. -/
theorem c7_override_nonzero_witness :
    beamwidth_horizontal ⟨"powerbeam".toList, "".toList, some 45, none⟩ = 45 ∧
    beamwidth_vertical ⟨"powerbeam".toList, "".toList, some 45, none⟩ =
      (model_beamwidth "powerbeam".toList "".toList).2 :=
  ⟨(c7_override_nonzero ⟨"powerbeam".toList, "".toList, some 45, none⟩ 45).1 rfl (by decide),
   (c7_override_nonzero ⟨"powerbeam".toList, "".toList, some 45, none⟩ 45).2.2.2.2.2 rfl⟩

/-- With a nonzero step count the bearing of ray i simplifies to the
equally spaced value azimuth - beamwidth/2 + beamwidth * i / steps. -/
theorem cone_bearing_eq (az bw : ℝ) (steps i : ℕ) (hs : (steps : ℝ) ≠ 0) :
    cone_bearing az bw steps i = az - bw / 2 + bw * i / steps := by
  unfold cone_bearing rad2deg deg2rad
  have hpi := Real.pi_ne_zero
  field_simp
  ring

/-- Closed form of calculate_coverage_cone: an optional origin vertex
followed by the 37 fan points, all at the common boundary distance. -/
theorem coverage_cone_eq (dest : ℝ → ℝ → ℝ → ℝ → ℝ × ℝ)
    (clat clon az dt bw ah d : ℝ) :
    calculate_coverage_cone dest clat clon az dt bw ah d =
      (if bw ≠ 360 ∧ bw ≠ 0 then [(clat, clon)] else []) ++
        (List.range 37).map (fun i : ℕ =>
          dest clat clon (az - bw / 2 + bw * (i : ℝ) / 36)
            (cone_boundary_dist ah dt d)) := by
  have harc : (List.range (36 + 1)).map (fun i =>
      dest clat clon (cone_bearing az bw 36 i) (cone_boundary_dist ah dt d)) =
    (List.range 37).map (fun i : ℕ =>
      dest clat clon (az - bw / 2 + bw * (i : ℝ) / 36) (cone_boundary_dist ah dt d)) := by
    refine List.map_congr_left fun i _ => ?_
    rw [cone_bearing_eq az bw 36 i (by norm_num)]
    norm_num
  simp only [calculate_coverage_cone]
  rw [harc]
  split_ifs <;> rfl

/-- C8: calculate_coverage_cone returns the 37 fan points at the equally
spaced bearings azimuth - beamwidth/2 + beamwidth * i / 36 for
i = 0 .. 36 (both edges included: i = 0 gives azimuth - beamwidth/2 and
i = 36 gives azimuth + beamwidth/2), each at the common boundary
distance, with the radio position prepended exactly when beamwidth is
neither 0 nor 360, so the length is 38 in the directional case and 37 in
the omnidirectional one. -/
theorem c8_cone_structure (dest : ℝ → ℝ → ℝ → ℝ → ℝ × ℝ)
    (clat clon az dt bw ah d : ℝ) :
    calculate_coverage_cone dest clat clon az dt bw ah d =
      (if bw ≠ 360 ∧ bw ≠ 0 then [(clat, clon)] else []) ++
        (List.range 37).map (fun i : ℕ =>
          dest clat clon (az - bw / 2 + bw * (i : ℝ) / 36)
            (cone_boundary_dist ah dt d)) ∧
    (calculate_coverage_cone dest clat clon az dt bw ah d).length =
      (if bw ≠ 360 ∧ bw ≠ 0 then 38 else 37) := by
  refine ⟨coverage_cone_eq dest clat clon az dt bw ah d, ?_⟩
  rw [coverage_cone_eq dest clat clon az dt bw ah d]
  split_ifs <;>
    simp only [List.singleton_append, List.length_cons, List.length_map,
      List.length_range, List.nil_append, List.length_nil]

/-- C3 counterexample: for downtilt -45 degrees, antenna height 30 and
max distance 5000, the boundary distance is 30 (the code tilts by
abs(downtilt) and intersects the ground at 30 m), not the 5000 claimed
for nonpositive downtilt. -/
theorem c3_counterexample :
    cone_boundary_dist 30 (-45) 5000 = 30 ∧ (30 : ℝ) ≠ 5000 := by
  constructor
  · have habs : |(-45 : ℝ)| = 45 := by norm_num
    have hrad : deg2rad (45 : ℝ) = Real.pi / 4 := by
      unfold deg2rad; ring
    have hpos : 0 < deg2rad (45 : ℝ) := by rw [hrad]; positivity
    unfold cone_boundary_dist ground_distance
    rw [habs, if_neg (not_le.mpr hpos), hrad, Real.tan_pi_div_four]
    norm_num [min_def]
  · norm_num

/-- C3 amended: the boundary distance of every fan ray is
min(antenna_height / tan(radians(abs(downtilt))), max_distance_m)
whenever downtilt is nonzero (positive or negative, because the code
takes the absolute value first), and max_distance_m when downtilt is
zero; no division by zero occurs since the divisor branch is only taken
when the tilt angle is positive. -/
theorem c3_boundary_dist (ah dt d : ℝ) :
    (dt ≠ 0 → cone_boundary_dist ah dt d =
      min (ah / Real.tan (deg2rad |dt|)) d) ∧
    (dt = 0 → cone_boundary_dist ah dt d = d) ∧
    (∀ dest clat clon az bw,
      calculate_coverage_cone dest clat clon az dt bw ah d =
        (if bw ≠ 360 ∧ bw ≠ 0 then [(clat, clon)] else []) ++
          (List.range 37).map (fun i : ℕ =>
            dest clat clon (az - bw / 2 + bw * (i : ℝ) / 36)
              (cone_boundary_dist ah dt d))) := by
  refine ⟨fun h => ?_, fun h => ?_,
    fun dest clat clon az bw => coverage_cone_eq dest clat clon az dt bw ah d⟩
  · have hpos : 0 < deg2rad |dt| := by
      have habs : 0 < |dt| := abs_pos.mpr h
      unfold deg2rad
      positivity
    unfold cone_boundary_dist ground_distance
    rw [if_neg (not_le.mpr hpos)]
  · subst h
    unfold cone_boundary_dist ground_distance deg2rad
    simp

/-- C3 witness: at downtilt 45 the boundary distance is the min of the
ground intersection and the max distance, and at downtilt 0 it is the
max distance 5000. -/
theorem c3_boundary_dist_witness :
    cone_boundary_dist 30 45 5000 = min (30 / Real.tan (deg2rad |(45 : ℝ)|)) 5000 ∧
    cone_boundary_dist 30 0 5000 = 5000 :=
  ⟨(c3_boundary_dist 30 45 5000).1 (by norm_num),
   (c3_boundary_dist 30 0 5000).2.1 rfl⟩

/-- The accumulation loop of estimate_ap_azimuth computes the
componentwise sums of the per-station bearing vectors. -/
theorem foldl_pair_sum (ap : ℝ × ℝ) (stations : List (ℝ × ℝ)) (a b : ℝ) :
    stations.foldl
        (fun acc st => (acc.1 + bearing_x ap st, acc.2 + bearing_y ap st)) (a, b) =
      (a + (stations.map (bearing_x ap)).sum,
        b + (stations.map (bearing_y ap)).sum) := by
  induction stations generalizing a b with
  | nil => simp
  | cons st rest ih =>
    simp only [List.foldl_cons, List.map_cons, List.sum_cons, ih, Prod.mk.injEq]
    constructor <;> ring

/-- atan2 inherits the range (-pi, pi] of the complex argument. -/
theorem atan2_range (y x : ℝ) : -Real.pi < atan2 y x ∧ atan2 y x ≤ Real.pi :=
  ⟨Complex.neg_pi_lt_arg _, Complex.arg_le_pi _⟩

/-- In degrees the mean bearing lies in (-180, 180]. -/
theorem rad2deg_atan2_range (y x : ℝ) :
    -180 < rad2deg (atan2 y x) ∧ rad2deg (atan2 y x) ≤ 180 := by
  obtain ⟨h1, h2⟩ := atan2_range y x
  unfold rad2deg
  constructor
  · rw [lt_div_iff Real.pi_pos]
    linarith
  · rw [div_le_iff Real.pi_pos]
    linarith

/-- C6: estimate_ap_azimuth coincides with the circular-mean reference
definition: for a non-empty station list it is
degrees(atan2(sum of per-station x, sum of per-station y)) with negative
results shifted by 360, and for an empty list it is 0; moreover the
result always lies in [0, 360), so two stations at bearings 350 and 10
average near 0, never 180. -/
theorem c6_azimuth_circular_mean (ap : ℝ × ℝ) (stations : List (ℝ × ℝ)) :
    estimate_ap_azimuth ap stations =
      (if stations = [] then 0 else azimuth_circular_mean ap stations) ∧
    0 ≤ estimate_ap_azimuth ap stations ∧
    estimate_ap_azimuth ap stations < 360 := by
  have hrange := rad2deg_atan2_range ((stations.map (bearing_x ap)).sum)
    ((stations.map (bearing_y ap)).sum)
  have heq : estimate_ap_azimuth ap stations =
      (if stations = [] then 0 else azimuth_circular_mean ap stations) := by
    unfold estimate_ap_azimuth azimuth_circular_mean
    split_ifs with h
    · rfl
    · rw [foldl_pair_sum ap stations 0 0]
      norm_num
  have hn360 : ∀ az : ℝ, -180 < az → az ≤ 180 →
      0 ≤ (if az < 0 then az + 360 else az) ∧
        (if az < 0 then az + 360 else az) < 360 := by
    intro az ha1 ha2
    split_ifs with hneg <;> constructor <;> linarith
  refine ⟨heq, ?_⟩
  rw [heq]
  split_ifs with h
  · norm_num
  · exact hn360 _ hrange.1 hrange.2

/-- The truncated ray is a sublist of the full distance list. -/
theorem truncate_ray_sublist (p : ℝ → Prop) (l : List ℝ) :
    (truncate_ray p l).Sublist l := by
  induction l with
  | nil => simp [truncate_ray]
  | cons d ds ih =>
    unfold truncate_ray
    split_ifs
    · exact List.nil_sublist _
    · exact ih.cons₂ d

/-- If the whole distance list is strictly increasing and some member t
is obstructed, every distance surviving the march is strictly below t:
the march never passes the first obstruction. -/
theorem truncate_ray_lt_of_obstructed (p : ℝ → Prop) (t : ℝ) (hp : p t) :
    ∀ l : List ℝ, l.Pairwise (· < ·) → t ∈ l → ∀ x ∈ truncate_ray p l, x < t := by
  intro l
  induction l with
  | nil => intro _ ht; simp at ht
  | cons d ds ih =>
    intro hl ht x hx
    unfold truncate_ray at hx
    split_ifs at hx with hd
    · simp at hx
    · rcases List.mem_cons.mp hx with rfl | hx'
      · rcases List.mem_cons.mp ht with heq | ht'
        · exact absurd (heq ▸ hp) hd
        · exact (List.pairwise_cons.mp hl).1 t ht'
      · rcases List.mem_cons.mp ht with heq | ht'
        · exact absurd (heq ▸ hp) hd
        · exact ih (List.pairwise_cons.mp hl).2 ht' x hx'

/-- A march over a list with no obstructed member keeps the whole list. -/
theorem truncate_ray_all (p : ℝ → Prop) (l : List ℝ) (h : ∀ x ∈ l, ¬ p x) :
    truncate_ray p l = l := by
  induction l with
  | nil => rfl
  | cons d ds ih =>
    unfold truncate_ray
    rw [if_neg (h d (List.mem_cons_self d ds)),
      ih fun x hx => h x (List.mem_cons_of_mem d hx)]

/-- With at least two samples and a positive span, the linspace samples
are strictly increasing. -/
theorem linspace_pairwise (a b : ℝ) (n : ℕ) (hab : a < b) (hn : 2 ≤ n) :
    (linspace a b n).Pairwise (· < ·) := by
  have hn' : (2 : ℝ) ≤ (n : ℝ) := by exact_mod_cast hn
  have hd : (0 : ℝ) < (n : ℝ) - 1 := by linarith
  unfold linspace
  refine List.Pairwise.map _ (fun i j hij => ?_) (List.pairwise_lt_range n)
  have hij' : (i : ℝ) < (j : ℝ) := by exact_mod_cast hij
  have hba : (0 : ℝ) < b - a := by linarith
  have hmul : (b - a) * (i : ℝ) < (b - a) * (j : ℝ) :=
    mul_lt_mul_of_pos_left hij' hba
  have hdiv : (b - a) * (i : ℝ) / ((n : ℝ) - 1) <
      (b - a) * (j : ℝ) / ((n : ℝ) - 1) := (div_lt_div_right hd).mpr hmul
  linarith

/-- The last linspace sample is the upper endpoint b. -/
theorem mem_linspace_last (a b : ℝ) (n : ℕ) (hn : 2 ≤ n) : b ∈ linspace a b n := by
  unfold linspace
  refine List.mem_map.mpr ⟨n - 1, List.mem_range.mpr (by omega), ?_⟩
  have hn' : (2 : ℝ) ≤ (n : ℝ) := by exact_mod_cast hn
  have hd : ((n : ℝ) - 1) ≠ 0 := by linarith
  have hcast : ((n - 1 : ℕ) : ℝ) = (n : ℝ) - 1 := by
    have h1 : 1 ≤ n := by omega
    push_cast [h1]
    ring
  rw [hcast, mul_div_assoc, div_self hd]
  ring

/-- Every linspace sample from 0 to a nonnegative d lies in [0, d]. -/
theorem mem_linspace_bounds (d : ℝ) (n : ℕ) (hd : 0 ≤ d) :
    ∀ x ∈ linspace 0 d n, 0 ≤ x ∧ x ≤ d := by
  unfold linspace
  intro x hx
  obtain ⟨j, hj, rfl⟩ := List.mem_map.mp hx
  rw [List.mem_range] at hj
  rcases Nat.lt_or_ge n 2 with hn | hn
  · have hj0 : j = 0 := by omega
    subst hj0
    norm_num
    exact hd
  · have hn' : (2 : ℝ) ≤ (n : ℝ) := by exact_mod_cast hn
    have hpos : (0 : ℝ) < (n : ℝ) - 1 := by linarith
    have hjle : (j : ℝ) ≤ (n : ℝ) - 1 := by
      have h1 : j ≤ n - 1 := by omega
      have h2 : ((j : ℝ)) ≤ ((n - 1 : ℕ) : ℝ) := by exact_mod_cast h1
      have h3 : ((n - 1 : ℕ) : ℝ) = (n : ℝ) - 1 := by
        have h4 : 1 ≤ n := by omega
        push_cast [h4]
        ring
      linarith [h3 ▸ h2]
    constructor
    · have : (0 : ℝ) ≤ (d - 0) * (j : ℝ) / ((n : ℝ) - 1) :=
        div_nonneg (mul_nonneg (by linarith) (Nat.cast_nonneg j)) hpos.le
      linarith
    · have hnum : (d - 0) * (j : ℝ) ≤ d * ((n : ℝ) - 1) := by nlinarith
    -- 0 + (d-0)*j/(n-1) ≤ d
      rw [zero_add, sub_zero, div_le_iff hpos]
      nlinarith

/-- C4: along each bearing of the viewshed fan, if some sampled distance
t1 is obstructed (terrain strictly above signal height plus receiver
height), then no sampled distance t2 at or beyond t1 survives the march
on that bearing - neither the obstructed point itself nor any farther
one - the surviving distances of each ray are strictly increasing, and
calculate_viewshed is the optional origin vertex followed by the
per-bearing surviving points, bearing-major, in increasing-distance
order within each bearing. -/
theorem c4_ray_truncation (P : VsParams) (hd : 0 < P.distance_m)
    (hm : 2 ≤ P.points_per_line) (i : ℕ) :
    (∀ t1 ∈ linspace 0 P.distance_m P.points_per_line,
      ∀ t2 ∈ linspace 0 P.distance_m P.points_per_line,
        t1 ≤ t2 → vs_obstructed P i t1 → t2 ∉ vs_ray_dists P i) ∧
    (vs_ray_dists P i).Pairwise (· < ·) ∧
    calculate_viewshed P =
      (if P.beamwidth ≠ 360 ∧ P.beamwidth ≠ 0 then
        [(P.center_lat, P.center_lon)] else []) ++
        (List.range (P.steps + 1)).flatMap
          (fun k => (vs_ray_dists P k).map (vs_point P k)) := by
  have hpw := linspace_pairwise 0 P.distance_m P.points_per_line hd hm
  refine ⟨fun t1 h1 t2 h2 h12 hobs ht2 => ?_, ?_, ?_⟩
  · have hlt := truncate_ray_lt_of_obstructed (vs_obstructed P i) t1 hobs
      (linspace 0 P.distance_m P.points_per_line) hpw h1 t2 ht2
    linarith
  · exact List.Pairwise.sublist (truncate_ray_sublist _ _) hpw
  · simp only [calculate_viewshed]
    split_ifs <;> rfl

/-- C4 witness: over a terrain of constant elevation 1000 the sample at
distance 0 is already obstructed (1000 > 30 + 6), so with ray samples
at 0 and 100 the endpoint 100 does not survive the march on bearing 0. -/
theorem c4_ray_truncation_witness :
    (100 : ℝ) ∉ vs_ray_dists
      ⟨fun _ => 1000, fun _ _ b t => (b, t), 1, 2, 0, 0, 0, 0, 90, 30, 100, 6⟩ 0 := by
  have hls : linspace (0 : ℝ) 100 2 = [0, 100] := by
    norm_num [linspace, List.range_succ]
  have h0 : (0 : ℝ) ∈ linspace (0 : ℝ) 100 2 := by rw [hls]; simp
  have h100 : (100 : ℝ) ∈ linspace (0 : ℝ) 100 2 := by rw [hls]; simp
  have hobs : vs_obstructed
      ⟨fun _ => 1000, fun _ _ b t => (b, t), 1, 2, 0, 0, 0, 0, 90, 30, 100, 6⟩ 0 0 := by
    show (1000 : ℝ) > 30 - 0 * Real.tan (deg2rad |(0 : ℝ)|) + 6
    norm_num
  exact (c4_ray_truncation
    ⟨fun _ => 1000, fun _ _ b t => (b, t), 1, 2, 0, 0, 0, 0, 90, 30, 100, 6⟩
    (by show (0 : ℝ) < 100; norm_num) (by norm_num) 0).1
    0 h0 100 h100 (by norm_num) hobs

/-- C5 counterexample: antenna height 30, downtilt 5 and beamwidth 90
over a perfectly flat elevation model returning 0 everywhere, with
configured range 5000 m, azimuth 45, two bearings and two samples per
ray: the full-range endpoint of the bearing-90 ray is the point
(90, 5000), yet the computed viewshed is [(0, 0), (0, 0), (90, 0)] -
each ray truncates at its far sample because the descending beam is
below ground level there - so the claimed endpoint is absent. -/
theorem c5_counterexample :
    vs_point ⟨fun _ => 0, fun _ _ b t => (b, t), 1, 2, 0, 0, 45, 5, 90, 30, 5000, 6⟩
        1 5000 = ((90 : ℝ), (5000 : ℝ)) ∧
    ((90 : ℝ), (5000 : ℝ)) ∉ calculate_viewshed
      ⟨fun _ => 0, fun _ _ b t => (b, t), 1, 2, 0, 0, 45, 5, 90, 30, 5000, 6⟩ := by
  have hb : ∀ i : ℕ, cone_bearing 45 90 1 i = 90 * i := by
    intro i
    rw [cone_bearing_eq 45 90 1 i (by norm_num)]
    push_cast
    ring
  have hdr : deg2rad |(5 : ℝ)| = Real.pi / 36 := by
    rw [abs_of_pos (by norm_num : (0 : ℝ) < 5)]
    unfold deg2rad
    ring
  have htan : (36 : ℝ) / 5000 < Real.tan (deg2rad |(5 : ℝ)|) := by
    rw [hdr]
    have hpi2 : Real.pi / 36 < Real.pi / 2 := by
      have := Real.pi_pos
      linarith
    have h1 := Real.lt_tan (by positivity) hpi2
    have h2 : (36 : ℝ) / 5000 < Real.pi / 36 := by
      have := Real.pi_gt_three
      linarith
    linarith
  set Q : VsParams :=
    ⟨fun _ => 0, fun _ _ b t => (b, t), 1, 2, 0, 0, 45, 5, 90, 30, 5000, 6⟩ with hQdef
  have hls : linspace (0 : ℝ) 5000 2 = [0, 5000] := by
    norm_num [linspace, List.range_succ]
  have hray : ∀ i, vs_ray_dists Q i = [0] := by
    intro i
    have hnot0 : ¬ vs_obstructed Q i 0 := by
      show ¬ ((0 : ℝ) > 30 - 0 * Real.tan (deg2rad |(5 : ℝ)|) + 6)
      norm_num
    have hyes : vs_obstructed Q i 5000 := by
      show (0 : ℝ) > 30 - 5000 * Real.tan (deg2rad |(5 : ℝ)|) + 6
      nlinarith
    show truncate_ray (vs_obstructed Q i) (linspace 0 5000 2) = [0]
    rw [hls]
    simp only [truncate_ray]
    rw [if_neg hnot0, if_pos hyes]
  have hp0 : vs_point Q 0 0 = ((0 : ℝ), (0 : ℝ)) := by
    show ((cone_bearing 45 90 1 0 : ℝ), (0 : ℝ)) = (0, 0)
    rw [hb 0]
    norm_num
  have hp1 : vs_point Q 1 0 = ((90 : ℝ), (0 : ℝ)) := by
    show ((cone_bearing 45 90 1 1 : ℝ), (0 : ℝ)) = (90, 0)
    rw [hb 1]
    norm_num
  have hpts : (List.range (Q.steps + 1)).flatMap
      (fun i => (vs_ray_dists Q i).map (vs_point Q i)) =
      [((0 : ℝ), (0 : ℝ)), ((90 : ℝ), (0 : ℝ))] := by
    show (List.range (1 + 1)).flatMap
      (fun i => (vs_ray_dists Q i).map (vs_point Q i)) =
      [((0 : ℝ), (0 : ℝ)), ((90 : ℝ), (0 : ℝ))]
    rw [show List.range (1 + 1) = [0, 1] by norm_num [List.range_succ]]
    simp only [List.flatMap_cons, List.flatMap_nil, hray, List.map_cons,
      List.map_nil, hp0, hp1, List.append_nil]
    rfl
  have hout : calculate_viewshed Q = [((0 : ℝ), (0 : ℝ)), (0, 0), (90, 0)] := by
    simp only [calculate_viewshed]
    split_ifs with hc
    · rw [hpts]
    · exact absurd ⟨by show (90 : ℝ) ≠ 360; norm_num,
        by show (90 : ℝ) ≠ 0; norm_num⟩ hc
  constructor
  · show ((cone_bearing 45 90 1 1 : ℝ), (5000 : ℝ)) = ((90 : ℝ), (5000 : ℝ))
    rw [hb 1]
    norm_num
  · rw [hout]
    simp only [List.mem_cons, List.not_mem_nil, or_false, Prod.mk.injEq]
    push_neg
    norm_num

/-- C5 amended: on a perfectly flat elevation model the viewshed ray of
every bearing retains all its samples - and in particular the endpoint
at the full configured range appears in calculate_viewshed's output for
every fan bearing - exactly when the descending signal stays at or above
minus the receiver height out to the full range, that is when
antenna_height - distance_m * tan(radians(abs(downtilt))) +
station_height is nonnegative; for 30 m height, 5 degrees downtilt and
receiver height 6 this bounds the range by 36/tan(5 degrees), about
411.6 m, so the property fails for the 5000 m default but holds for
ranges within that bound. -/
theorem c5_flat_endpoint (P : VsParams) (hflat : ∀ q, P.elev q = 0)
    (htan : 0 ≤ Real.tan (deg2rad |P.downtilt|))
    (hs : 0 ≤ P.antenna_height -
      P.distance_m * Real.tan (deg2rad |P.downtilt|) + P.station_height)
    (hd : 0 ≤ P.distance_m) (hm : 2 ≤ P.points_per_line) :
    (∀ i, vs_ray_dists P i = linspace 0 P.distance_m P.points_per_line) ∧
    (∀ i, P.distance_m ∈ vs_ray_dists P i) ∧
    (∀ i ≤ P.steps, vs_point P i P.distance_m ∈ calculate_viewshed P) := by
  have hray : ∀ i, vs_ray_dists P i =
      linspace 0 P.distance_m P.points_per_line := by
    intro i
    apply truncate_ray_all
    intro x hx
    obtain ⟨hx0, hxd⟩ := mem_linspace_bounds P.distance_m P.points_per_line hd x hx
    unfold vs_obstructed
    rw [hflat]
    push_neg
    have hmul : x * Real.tan (deg2rad |P.downtilt|) ≤
        P.distance_m * Real.tan (deg2rad |P.downtilt|) :=
      mul_le_mul_of_nonneg_right hxd htan
    linarith
  have hmem : ∀ i, P.distance_m ∈ vs_ray_dists P i := by
    intro i
    rw [hray i]
    exact mem_linspace_last 0 P.distance_m P.points_per_line hm
  refine ⟨hray, hmem, fun i hi => ?_⟩
  have hflatmem : vs_point P i P.distance_m ∈
      (List.range (P.steps + 1)).flatMap
        (fun k => (vs_ray_dists P k).map (vs_point P k)) :=
    List.mem_flatMap.mpr ⟨i, List.mem_range.mpr (by omega),
      List.mem_map_of_mem _ (hmem i)⟩
  simp only [calculate_viewshed]
  split_ifs
  · exact List.mem_cons_of_mem _ hflatmem
  · exact hflatmem

/-- C5 witness: with range 30 m (inside the 411.6 m bound), antenna
height 30, downtilt 5 and receiver height 6 over the flat model, the
full-range distance 30 survives the march on bearing 1. -/
theorem c5_flat_endpoint_witness :
    (30 : ℝ) ∈ vs_ray_dists
      ⟨fun _ => 0, fun _ _ b t => (b, t), 1, 2, 0, 0, 45, 5, 90, 30, 30, 6⟩ 1 := by
  have hdr : deg2rad |(5 : ℝ)| = Real.pi / 36 := by
    rw [abs_of_pos (by norm_num : (0 : ℝ) < 5)]
    unfold deg2rad
    ring
  have hpi2 : Real.pi / 36 < Real.pi / 2 := by
    have := Real.pi_pos
    linarith
  have htan0 : 0 ≤ Real.tan (deg2rad |(5 : ℝ)|) := by
    rw [hdr]
    exact Real.tan_nonneg_of_nonneg_of_le_pi_div_two (by positivity) hpi2.le
  have htan1 : Real.tan (deg2rad |(5 : ℝ)|) < 1 := by
    rw [hdr]
    have h4 : Real.pi / 4 < Real.pi / 2 := by
      have := Real.pi_pos
      linarith
    have h36 : Real.pi / 36 < Real.pi / 4 := by
      have := Real.pi_pos
      linarith
    have := Real.tan_lt_tan_of_nonneg_of_lt_pi_div_two (by positivity) h4 h36
    rw [Real.tan_pi_div_four] at this
    exact this
  exact ((c5_flat_endpoint
    ⟨fun _ => 0, fun _ _ b t => (b, t), 1, 2, 0, 0, 45, 5, 90, 30, 30, 6⟩
    (fun q => rfl) htan0
    (by show (0 : ℝ) ≤ 30 - 30 * Real.tan (deg2rad |(5 : ℝ)|) + 6; nlinarith)
    (by show (0 : ℝ) ≤ 30; norm_num) (by norm_num)).2.1) 1

/-- C9: get_elevation never propagates a failure of the underlying raster
lookup: a failing lookup (read error or out-of-bounds coordinate) yields
the sentinel elevation 0, and a successful lookup yields its value. -/
theorem c9_elevation_sentinel (fetch : ℚ → ℚ → Except String ℚ) (lat lon : ℚ) :
    (∀ e, fetch lat lon = .error e → get_elevation fetch lat lon = 0) ∧
    (∀ v, fetch lat lon = .ok v → get_elevation fetch lat lon = v) := by
  constructor <;> intro x h <;> simp [get_elevation, h]

/-- C9 witness: a lookup that always fails with an out-of-bounds error
yields the sentinel elevation 0 at a concrete coordinate. -/
theorem c9_elevation_sentinel_witness :
    get_elevation (fun _ _ => .error "out of bounds") 1 2 = 0 :=
  (c9_elevation_sentinel (fun _ _ => .error "out of bounds") 1 2).1 "out of bounds" rfl

/-- The all-zero grid has the shape of the source raster. -/
theorem zeros_grid_shape (rows cols : ℕ) :
    (zeros_grid rows cols).map List.length = List.replicate rows cols := by
  simp [zeros_grid, List.map_replicate]

/-- Every cell of the all-zero grid reads 0. -/
theorem gridVal_zeros (rows cols i j : ℕ) :
    gridVal (zeros_grid rows cols) i j = 0 := by
  unfold gridVal zeros_grid
  rw [List.getD_eq_getElem?_getD (List.replicate rows (List.replicate cols 0)) i [],
    List.getElem?_replicate]
  split_ifs with h
  · rw [Option.getD_some, List.getD_eq_getElem?_getD, List.getElem?_replicate]
    split_ifs <;> rfl
  · rw [Option.getD_none]
    rfl

/-- A grid with the raster's shape has rows many rows. -/
theorem shape_length {g : List (List ℕ)} {rows cols : ℕ}
    (h : g.map List.length = List.replicate rows cols) : g.length = rows := by
  have h2 := congrArg List.length h
  simpa using h2

/-- In a grid with the raster's shape, every row index below rows holds a
row of cols cells. -/
theorem shape_row {g : List (List ℕ)} {rows cols : ℕ}
    (h : g.map List.length = List.replicate rows cols) {r : ℕ} (hr : r < rows) :
    ∃ row, g[r]? = some row ∧ row.length = cols := by
  have hlen := shape_length h
  have hrl : r < g.length := by omega
  refine ⟨g[r], List.getElem?_eq_getElem hrl, ?_⟩
  have h2 := congrArg (fun l => l[r]?) h
  simp only [List.getElem?_map, List.getElem?_replicate, if_pos hr,
    List.getElem?_eq_getElem hrl, Option.map_some'] at h2
  exact Option.some.inj h2

/-- Marking a cell does not change the shape of the grid. -/
theorem mark_cell_shape {g : List (List ℕ)} {rows cols : ℕ}
    (h : g.map List.length = List.replicate rows cols) (r c : ℕ) :
    (mark_cell g r c).map List.length = List.replicate rows cols := by
  unfold mark_cell
  rw [List.map_set, List.length_set, h]
  rcases Nat.lt_or_ge r rows with hr | hr
  · obtain ⟨row, hrow, hrowlen⟩ := shape_row h hr
    have hgd : (g.getD r []).length = cols := by
      rw [List.getD_eq_getElem?_getD, hrow, Option.getD_some, hrowlen]
    rw [hgd]
    apply List.ext_getElem?
    intro n
    rw [List.getElem?_set]
    split_ifs with h1 h2 <;> simp_all [List.getElem?_replicate]
  · rw [List.set_eq_of_length_le]
    simpa using hr

/-- Marking cell (r, c) sets it to 1 and leaves every other cell
unchanged, for in-range r and c. -/
theorem gridVal_mark_cell {g : List (List ℕ)} {rows cols : ℕ}
    (h : g.map List.length = List.replicate rows cols)
    (r c : ℕ) (hr : r < rows) (hc : c < cols) (i j : ℕ) :
    gridVal (mark_cell g r c) i j =
      if i = r ∧ j = c then 1 else gridVal g i j := by
  obtain ⟨row, hrow, hrowlen⟩ := shape_row h hr
  have hgl : g.length = rows := shape_length h
  have hgetD : g.getD r [] = row := by
    rw [List.getD_eq_getElem?_getD g r [], hrow, Option.getD_some]
  unfold mark_cell gridVal
  rw [hgetD,
    List.getD_eq_getElem?_getD (g.set r (row.set c 1)) i [], List.getElem?_set]
  by_cases hi : r = i
  · subst hi
    rw [if_pos rfl, if_pos (show r < g.length by omega), Option.getD_some,
      List.getD_eq_getElem?_getD (row.set c 1) j 0, List.getElem?_set]
    by_cases hj : c = j
    · subst hj
      rw [if_pos rfl, if_pos (show c < row.length by omega), Option.getD_some,
        if_pos ⟨rfl, rfl⟩]
    · rw [if_neg hj, ← List.getD_eq_getElem?_getD,
        if_neg (fun hh => hj hh.2.symm), hgetD]
  · rw [if_neg hi, ← List.getD_eq_getElem?_getD,
      if_neg (fun hh => hi hh.1.symm)]

/-- One step of the raster fold either skips the sample, leaving every
cell as it was, or marks exactly one legitimately visible cell with 1;
the shape is preserved either way. -/
theorem raster_step_preserves (P : RasterParams) (g : List (List ℕ)) (s : ℝ × ℝ)
    (h : g.map List.length = List.replicate P.rows P.cols) :
    ((raster_step P g s).map List.length = List.replicate P.rows P.cols) ∧
    ∀ i j, gridVal (raster_step P g s) i j = gridVal g i j ∨
      (gridVal (raster_step P g s) i j = 1 ∧ raster_marks P s i j) := by
  simp only [raster_step]
  split_ifs with hbound
  · split
    next e heq => exact ⟨h, fun i j => Or.inl rfl⟩
    next r c heq =>
      split_ifs with hdim hsig
      · refine ⟨mark_cell_shape h r.toNat c.toNat, fun i j => ?_⟩
        rw [gridVal_mark_cell h r.toNat c.toNat (by omega) (by omega) i j]
        split_ifs with hij
        · right
          obtain ⟨hi, hj⟩ := hij
          subst hi
          subst hj
          exact ⟨rfl, hbound, r, c, heq, hdim, rfl, rfl, hsig⟩
        · left
          rfl
      · exact ⟨h, fun i j => Or.inl rfl⟩
      · exact ⟨h, fun i j => Or.inl rfl⟩
  · exact ⟨h, fun i j => Or.inl rfl⟩

/-- The invariant of the raster fold: shape preserved and every 1-cell
justified by some sample of the cone. -/
theorem raster_fold_invariant (P : RasterParams) :
    ∀ (l : List (ℝ × ℝ)) (g : List (List ℕ)),
      (∀ s ∈ l, s ∈ raster_samples P) →
      g.map List.length = List.replicate P.rows P.cols →
      (∀ i j, gridVal g i j = 0 ∨ (gridVal g i j = 1 ∧
        ∃ s ∈ raster_samples P, raster_marks P s i j)) →
      ((l.foldl (raster_step P) g).map List.length =
        List.replicate P.rows P.cols) ∧
      (∀ i j, gridVal (l.foldl (raster_step P) g) i j = 0 ∨
        (gridVal (l.foldl (raster_step P) g) i j = 1 ∧
          ∃ s ∈ raster_samples P, raster_marks P s i j)) := by
  intro l
  induction l with
  | nil => exact fun g _ h1 h2 => ⟨h1, h2⟩
  | cons s rest ih =>
    intro g hl h1 h2
    simp only [List.foldl_cons]
    obtain ⟨hsh, hval⟩ := raster_step_preserves P g s h1
    refine ih _ (fun x hx => hl x (List.mem_cons_of_mem s hx)) hsh ?_
    intro i j
    rcases hval i j with heq | ⟨hone, hmk⟩
    · rw [heq]
      exact h2 i j
    · exact Or.inr ⟨hone, s, hl s (List.mem_cons_self s rest), hmk⟩

/-- C10: calculate_viewshed_raster always returns a grid of exactly the
raster's shape (rows rows of cols cells); every cell reads 0 or 1, and a
cell reads 1 only when some sample of the cone legitimately marked it -
inside the georeferenced bounds, with a successful rowcol conversion to
in-range indices and elevation within the signal height - so samples that
are out of bounds, fail conversion or index outside the dimensions are
skipped and leave their cells at 0, and the fold never fails. -/
theorem c10_raster_shape (P : RasterParams) :
    ((calculate_viewshed_raster P).map List.length =
      List.replicate P.rows P.cols) ∧
    ∀ i j, gridVal (calculate_viewshed_raster P) i j = 0 ∨
      (gridVal (calculate_viewshed_raster P) i j = 1 ∧
        ∃ s ∈ raster_samples P, raster_marks P s i j) := by
  unfold calculate_viewshed_raster
  exact raster_fold_invariant P (raster_samples P) (zeros_grid P.rows P.cols)
    (fun s hs => hs) (zeros_grid_shape _ _)
    (fun i j => Or.inl (gridVal_zeros _ _ i j))

end LavalinkSpec
